import Mathlib

/-!
Verification of the OCR-Bank financial-documents repository: a shallow
embedding, over lists of characters, of the model-reply parser in
document_processor.py (extract_parameters), the comparator in
visualizations.py (process_comparative_data) together with the two chart
builders, and the CSV export of main1.py. Python strings are embedded as
Lean strings; the character-level operations of the source (str.split,
str.strip, re.sub, float conversion, list filtering) are given as
executable functions on List Char so every definition evaluates inside the
kernel.
-/

namespace OcrBank

/-- Cell value of an extraction row: the Python code stores the result of
float conversion when it succeeds and keeps the cleaned string otherwise
(document_processor.py lines 151-154). Rational numbers embed the decimal
values the float conversion can produce from a cleaned string. -/
inductive Value where
  | num (q : ℚ)
  | str (s : String)
deriving DecidableEq, Repr

/-- One row of the combined table accumulated in main1.py: the Parameter
and Value columns produced by the extractor plus the Document tag appended
at main1.py line 93. -/
structure Row where
  param : String
  value : Value
  doc : String
deriving DecidableEq, Repr

/-! Character-level embeddings of the Python string primitives used by the
parser. -/

/-- Whitespace recognised by the Python str.strip method, restricted to the
ASCII whitespace characters. -/
def pyIsSpace (c : Char) : Bool :=
  c = ' ' || c = '\t' || c = '\n' || c = '\r' || c = '\x0b' || c = '\x0c'

/-- Removal of characters satisfying a predicate from both ends of a
character list; this is the Python str.strip(chars) operation. -/
def stripEnds (p : Char → Bool) (s : List Char) : List Char :=
  ((s.dropWhile p).reverse.dropWhile p).reverse

/-- Embedding of the argument-free Python str.strip call. -/
def pyStrip (s : List Char) : List Char :=
  stripEnds pyIsSpace s

/-- Splitting at the first occurrence of a character, as the Python call
line.split(c, 1) does: none when the character is absent, which is the
case in which the Python parts list has length 1. -/
def splitFirst (c : Char) : List Char → Option (List Char × List Char)
  | [] => none
  | x :: xs =>
    if x = c then some ([], xs)
    else (splitFirst c xs).map (fun r => (x :: r.1, r.2))

/-- Splitting at every newline character, as the Python call
text.split(chr 10) does: the empty text yields one empty piece, and
consecutive newlines yield empty pieces. -/
def splitLines : List Char → List (List Char)
  | [] => [[]]
  | c :: cs =>
    if c = '\n' then [] :: splitLines cs
    else
      match splitLines cs with
      | [] => [[c]]
      | l :: ls => (c :: l) :: ls

/-- Characters kept by the regular-expression substitution at
document_processor.py line 147: digits, comma, hyphen and period (the
character class between comma and period is exactly the set of those three
characters). -/
def keepNumChar (c : Char) : Bool :=
  c.isDigit || c = ',' || c = '-' || c = '.'

/-- Numeric value of a list of decimal digit characters, most significant
first; the empty list has value zero. -/
def digitsVal (ds : List Char) : Nat :=
  ds.foldl (fun a c => 10 * a + (c.toNat - 48)) 0

/-- Embedding of the Python float conversion restricted to its behaviour on
the cleaned value strings reaching it, whose characters are only digits,
hyphens and periods after comma removal: an optional leading sign followed
by digits with at most one period and at least one digit, with no
whitespace, exponent, underscore or infinity form possible in that
alphabet. Returns none exactly when Python float raises ValueError on such
a string. -/
def pyFloat (s : List Char) : Option ℚ :=
  let signAndRest : Int × List Char :=
    match s with
    | '-' :: t => (-1, t)
    | '+' :: t => (1, t)
    | t => (1, t)
  let sign := signAndRest.1
  let rest := signAndRest.2
  let intPart := rest.takeWhile Char.isDigit
  match rest.dropWhile Char.isDigit with
  | [] =>
    if intPart.isEmpty then none
    else some (mkRat (sign * (digitsVal intPart : Int)) 1)
  | '.' :: rest3 =>
    let fracPart := rest3.takeWhile Char.isDigit
    if !(rest3.dropWhile Char.isDigit).isEmpty then none
    else if intPart.isEmpty && fracPart.isEmpty then none
    else some (mkRat
      (sign * (digitsVal intPart * 10 ^ fracPart.length + digitsVal fracPart : Int))
      (10 ^ fracPart.length))
  | _ => none

/-! Embedding of the response parser of document_processor.py, lines
137-166. -/

/-- Cleaning of the value side of a parsed line, document_processor.py
lines 144-148: strip whitespace, keep only digits, commas, hyphens and
periods, then remove the commas. -/
def cleanValue (v : List Char) : List Char :=
  ((pyStrip v).filter keepNumChar).filter (fun c => c ≠ ',')

/-- Cleaning of the label side of a parsed line, document_processor.py line
143: strip whitespace, then strip asterisks from both ends. -/
def cleanLabel (l : List Char) : String :=
  ⟨stripEnds (fun c => c = '*') (pyStrip l)⟩

/-- Conversion applied to a cleaned value string, document_processor.py
lines 151-154: the float value when conversion succeeds, the cleaned string
itself otherwise. -/
def convertValue (cleaned : List Char) : Value :=
  match pyFloat cleaned with
  | some q => Value.num q
  | none => Value.str ⟨cleaned⟩

/-- Processing of one line of the model reply, document_processor.py lines
139-156: split at the first colon; a line without a colon yields nothing;
otherwise the pair of the cleaned label and the converted cleaned value. -/
def parseLine (line : List Char) : Option (String × Value) :=
  match splitFirst ':' line with
  | none => none
  | some (l, v) => some (cleanLabel l, convertValue (cleanValue v))

/-- Pairs extracted from a list of reply lines: each line contributes its
parsed pair when it has one, in order. -/
def pairsOfLines (ls : List (List Char)) : List (String × Value) :=
  ls.filterMap parseLine

/-- Embedding of the parsing phase of extract_parameters,
document_processor.py lines 137-166: split the reply into lines, extract
the pairs, and return none paired with the raw text when no pair was
extracted (the code path returning None together with extracted_text at
lines 161-163), otherwise the table of pairs together with the raw text. -/
def extractParameters (text : String) :
    Option (List (String × Value)) × String :=
  let params := pairsOfLines (splitLines text.data)
  if params.isEmpty then (none, text) else (some params, text)

/-! Embedding of the comparator of visualizations.py, lines 8-37. The
pandas operations are embedded over lists of rows: Series.unique keeps the
first occurrence of each value, groupby sorts its keys lexicographically by
code point, and first() takes the first row of each group. -/

/-- Embedding of the pandas Series.unique call: distinct values in order of
first appearance. -/
def uniqueFirst {α : Type} [DecidableEq α] : List α → List α
  | [] => []
  | x :: xs => x :: (uniqueFirst xs).filter (fun y => y ≠ x)

/-- Distinct Document values of the table in order of first appearance,
visualizations.py line 24. -/
def docsOf (rows : List Row) : List String :=
  uniqueFirst (rows.map Row.doc)

/-- Distinct Parameter values of the table in order of first appearance,
visualizations.py line 25. -/
def paramsOf (rows : List Row) : List String :=
  uniqueFirst (rows.map Row.param)

/-- Lexicographic comparison of character lists by code point; this is the
ordering Python uses on strings and hence the ordering of the grouping
keys produced by the pandas groupby call. -/
def lexLe : List Char → List Char → Bool
  | [], _ => true
  | _ :: _, [] => false
  | a :: as, b :: bs =>
    if a.toNat < b.toNat then true
    else if b.toNat < a.toNat then false
    else lexLe as bs

/-- Lexicographic order on strings as a relation, for sorting the grouping
keys. -/
abbrev strLeR (a b : String) : Prop := lexLe a.data b.data = true

/-- Value of the (Parameter, Document) group at the grid position of the
pivoted frame, visualizations.py line 29: the Value of the first row of the
group, or none when the group is empty (the positions the unstack call
fills with a missing value). -/
def groupFirst (rows : List Row) (p d : String) : Option Value :=
  (rows.find? (fun r => r.param = p && r.doc = d)).map Row.value

/-- Common-parameter list of the multi-document branch, visualizations.py
lines 29-32: the distinct Parameters, in the sorted order the groupby call
produces, restricted to those whose group is nonempty for every distinct
Document, which are exactly the rows the dropna call keeps. -/
def commonParameters (rows : List Row) : List String :=
  (List.insertionSort strLeR (paramsOf rows)).filter
    (fun p => (docsOf rows).all (fun d => (groupFirst rows p d).isSome))

/-- Embedding of process_comparative_data, visualizations.py lines 8-37:
with a single distinct Document the table is returned unchanged together
with every distinct Parameter in first-appearance order; otherwise the
table restricted to rows whose Parameter is common to all documents,
together with the common-parameter list. The Document column always exists
in the embedded table, so the column-insertion guard at lines 20-21 is
the identity here. -/
def process_comparative_data (rows : List Row) : List Row × List String :=
  if (docsOf rows).length = 1 then (rows, paramsOf rows)
  else
    let common := commonParameters rows
    (rows.filter (fun r => common.contains r.param), common)

/-! Embedding of the chart builders of visualizations.py, lines 40-166. A
chart object is embedded as the data the plotly call receives; the
builders return none exactly on the code paths that return None after a
warning. -/

/-- Data of a plotly bar chart: the rows plotted, and whether the bars are
grouped and coloured by Document (the multi-document branch at
visualizations.py lines 85-98). -/
structure BarChart where
  chartRows : List Row
  byDocument : Bool
deriving DecidableEq, Repr

/-- Data of a plotly pie chart: the slice values and the slice names (the
Parameter column for a single document, the Document column for the
multi-document branch). -/
structure PieChart where
  sliceValues : List Value
  sliceNames : List String
deriving DecidableEq, Repr

/-- Embedding of visualize_comparative_data, visualizations.py lines
40-101: none for an absent or empty table or an empty common-parameter
list, a single-document bar chart when the processed table has one
distinct Document, and a grouped comparative bar chart otherwise. -/
def visualize_comparative_data : Option (List Row) → Option (List BarChart)
  | none => none
  | some rows =>
    if rows.isEmpty then none
    else
      let proc := process_comparative_data rows
      if proc.2.isEmpty then none
      else if (uniqueFirst (proc.1.map Row.doc)).length = 1 then
        some [⟨proc.1, false⟩]
      else some [⟨proc.1, true⟩]

/-- Embedding of create_interactive_pie_chart, visualizations.py lines
104-166: none for an absent or empty table or an empty common-parameter
list; a pie over all parameters for a single document; otherwise, for a
truthy selected parameter, none when the processed table has no row with
that Parameter (line 149-151) and the per-document pie otherwise; and none
when no parameter is selected (the empty string is falsy in Python, so it
takes the final warning path too). -/
def create_interactive_pie_chart :
    Option (List Row) → Option String → Option PieChart
  | none, _ => none
  | some rows, selectedParameter =>
    if rows.isEmpty then none
    else
      let proc := process_comparative_data rows
      if proc.2.isEmpty then none
      else if (uniqueFirst (proc.1.map Row.doc)).length = 1 then
        some ⟨proc.1.map Row.value, proc.1.map Row.param⟩
      else
        match selectedParameter with
        | some p =>
          if p = "" then none
          else
            let paramDf := proc.1.filter (fun r => r.param = p)
            if paramDf.isEmpty then none
            else some ⟨paramDf.map Row.value, paramDf.map Row.doc⟩
        | none => none

/-! Embedding of the CSV export of main1.py, lines 167-175: the combined
table is serialized with columns Parameter, Value, Document and no index
column. The serializer follows the pandas to_csv defaults: minimal
quoting, a field is quoted exactly when it contains a comma, a double
quote, or a line break, double quotes are doubled inside a quoted field,
and every record ends with a newline. -/

/-- Characters forcing a field to be quoted under minimal quoting. -/
def csvSpecial (c : Char) : Bool :=
  c = ',' || c = '"' || c = '\n' || c = '\r'

/-- Doubling of double quotes inside a quoted field. -/
def escQuotes : List Char → List Char
  | [] => []
  | c :: cs => if c = '"' then '"' :: '"' :: escQuotes cs else c :: escQuotes cs

/-- Serialization of one field under minimal quoting. -/
def csvField (s : String) : List Char :=
  if s.data.any csvSpecial then '"' :: (escQuotes s.data ++ ['"']) else s.data

/-- Serialization of one record: comma-separated fields ended by a
newline. -/
def csvRecord : List String → List Char
  | [] => ['\n']
  | [f] => csvField f ++ ['\n']
  | f :: fs => csvField f ++ ',' :: csvRecord fs

/-- Decimal digit characters of a natural number, via division by ten with
fuel. -/
def natDigits : Nat → Nat → List Char
  | 0, _ => []
  | _ + 1, 0 => []
  | fuel + 1, n => natDigits fuel (n / 10) ++ [Char.ofNat (48 + n % 10)]

/-- Decimal representation of a natural number. -/
def natRepr (n : Nat) : List Char :=
  if n = 0 then ['0'] else natDigits (n + 1) n

/-- Digits after the decimal point by long division, with fuel; values
reaching the export are parsed finite decimals, whose expansion
terminates. -/
def fracDigits : Nat → Nat → Nat → List Char
  | 0, _, _ => []
  | _ + 1, 0, _ => []
  | fuel + 1, r, d => Char.ofNat (48 + r * 10 / d) :: fracDigits fuel (r * 10 % d) d

/-- Decimal rendering of a rational value, as the Python float repr renders
the finite decimals the parser produces: a sign, the integer part, a
point, and the fraction digits, with a single zero fraction digit for
integral values. -/
def decimalRepr (q : ℚ) : List Char :=
  let sign : List Char := if q.num < 0 then ['-'] else []
  let a := q.num.natAbs
  let ip := a / q.den
  let r := a % q.den
  if r = 0 then sign ++ natRepr ip ++ ['.', '0']
  else sign ++ natRepr ip ++ '.' :: fracDigits 64 r q.den

/-- Rendering of a cell of the Value column in the CSV text: the decimal
repr for numbers, the string itself otherwise. -/
def valueRepr : Value → String
  | .num q => ⟨decimalRepr q⟩
  | .str s => s

/-- Header record of the export, the three DataFrame columns in order. -/
def csvHeader : List String := ["Parameter", "Value", "Document"]

/-- Fields of one exported row, in column order. -/
def rowFields (r : Row) : List String :=
  [r.param, valueRepr r.value, r.doc]

/-- Embedding of the to_csv call at main1.py line 169: the header record
followed by one record per row of the combined table. -/
def toCsv (rows : List Row) : String :=
  ⟨csvRecord csvHeader ++ (rows.map (fun r => csvRecord (rowFields r))).flatten⟩

/-- Reading mode of the CSV reader: outside any quotes, inside a quoted
field, or directly after a double quote seen inside a quoted field. -/
inductive CsvMode where
  | unquoted
  | quoted
  | afterQuote
deriving DecidableEq, Repr

/-- Modelled from the spec: the CSV re-parsing of the round-trip property
of section 8 of the specification is not part of the repository, which
only serializes; the reader is modelled as the standard CSV parse of the
exported text: fields separated by commas, records separated by newlines,
a field starting with a double quote read up to the closing quote with
doubled quotes undoubled, and separators inside quotes taken literally.
The machine state is the reading mode, the characters of the current
field in reverse, and the completed fields of the current record in
reverse. -/
def parseCsvAux : CsvMode → List Char → List Char → List String → List (List String)
  | .unquoted, [], field, record =>
    if field.isEmpty && record.isEmpty then []
    else [(String.mk field.reverse :: record).reverse]
  | .unquoted, c :: cs, field, record =>
    if c = ',' then parseCsvAux .unquoted cs [] (String.mk field.reverse :: record)
    else if c = '\n' then
      (String.mk field.reverse :: record).reverse :: parseCsvAux .unquoted cs [] []
    else if c = '"' && field.isEmpty then parseCsvAux .quoted cs [] record
    else parseCsvAux .unquoted cs (c :: field) record
  | .quoted, [], field, record => [(String.mk field.reverse :: record).reverse]
  | .quoted, c :: cs, field, record =>
    if c = '"' then parseCsvAux .afterQuote cs field record
    else parseCsvAux .quoted cs (c :: field) record
  | .afterQuote, [], field, record => [(String.mk field.reverse :: record).reverse]
  | .afterQuote, c :: cs, field, record =>
    if c = '"' then parseCsvAux .quoted cs ('"' :: field) record
    else if c = ',' then parseCsvAux .unquoted cs [] (String.mk field.reverse :: record)
    else if c = '\n' then
      (String.mk field.reverse :: record).reverse :: parseCsvAux .unquoted cs [] []
    else parseCsvAux .unquoted cs (c :: field) record

/-- Modelled from the spec: re-parsing of an exported CSV text into its
records of fields. -/
def parseCsv (s : String) : List (List String) :=
  parseCsvAux .unquoted s.data [] []

/-! Concrete tables used by the example clauses of the specification. -/

/-- Example of the specification: two documents sharing the Parameters
Total Balance and Net Salary, and a third document with only Total
Balance. -/
def exampleThreeDocs : List Row :=
  [⟨"Total Balance", Value.num (mkRat 1 1), "statement1.png"⟩,
   ⟨"Net Salary", Value.num (mkRat 2 1), "statement1.png"⟩,
   ⟨"Total Balance", Value.num (mkRat 3 1), "statement2.png"⟩,
   ⟨"Net Salary", Value.num (mkRat 4 1), "statement2.png"⟩,
   ⟨"Total Balance", Value.num (mkRat 5 1), "statement3.png"⟩]

/-- Two documents whose shared parameters appear in the input in the
order B then A, so that first-appearance order and sorted order differ. -/
def exampleTwoDocs : List Row :=
  [⟨"B", Value.num (mkRat 1 1), "d1"⟩,
   ⟨"A", Value.num (mkRat 2 1), "d1"⟩,
   ⟨"B", Value.num (mkRat 3 1), "d2"⟩,
   ⟨"A", Value.num (mkRat 4 1), "d2"⟩]

/-- A single-document table with a repeated Parameter, in the order B, A,
B. -/
def exampleSingleDoc : List Row :=
  [⟨"B", Value.num (mkRat 1 1), "Default Document"⟩,
   ⟨"A", Value.num (mkRat 2 1), "Default Document"⟩,
   ⟨"B", Value.num (mkRat 3 1), "Default Document"⟩]

/-! Lemmas about the line splitter and the per-line parser. -/

theorem splitFirst_eq_none {c : Char} {l : List Char} (h : c ∉ l) :
    splitFirst c l = none := by
  induction l with
  | nil => rfl
  | cons x xs ih =>
    rw [List.mem_cons, not_or] at h
    rw [splitFirst, if_neg (fun hx => h.1 hx.symm), ih h.2]
    rfl

theorem splitFirst_isSome {c : Char} {l : List Char} (h : c ∈ l) :
    (splitFirst c l).isSome := by
  induction l with
  | nil => simp at h
  | cons x xs ih =>
    rw [splitFirst]
    by_cases hx : x = c
    · simp [hx]
    · rcases List.mem_cons.mp h with h1 | h2
      · exact absurd h1.symm hx
      · rw [if_neg hx]
        rcases Option.isSome_iff_exists.mp (ih h2) with ⟨r, hr⟩
        simp [hr]

theorem parseLine_eq_none {line : List Char} (h : ':' ∉ line) :
    parseLine line = none := by
  rw [parseLine, splitFirst_eq_none h]

theorem parseLine_isSome {line : List Char} (h : ':' ∈ line) :
    (parseLine line).isSome := by
  rcases Option.isSome_iff_exists.mp (splitFirst_isSome h) with ⟨⟨l, v⟩, hr⟩
  rw [parseLine, hr]
  rfl

theorem pairsOfLines_length {ls : List (List Char)} (h : ∀ l ∈ ls, ':' ∈ l) :
    (pairsOfLines ls).length = ls.length := by
  induction ls with
  | nil => rfl
  | cons l ls ih =>
    rcases Option.isSome_iff_exists.mp (parseLine_isSome (h l (by simp))) with ⟨pr, hpr⟩
    rw [pairsOfLines, List.filterMap_cons, hpr]
    simp only [List.length_cons]
    rw [← pairsOfLines, ih (fun x hx => h x (by simp [hx]))]

theorem splitLines_ne_nil (l : List Char) : splitLines l ≠ [] := by
  cases l with
  | nil => simp [splitLines]
  | cons c cs =>
    rw [splitLines]
    by_cases hc : c = '\n'
    · simp [hc]
    · rw [if_neg hc]
      cases splitLines cs <;> simp

end OcrBank

namespace OcrBank

/-! Theorems for the parser claims. -/

/-- C2: every model-reply line of the Label-colon-value form is cleaned by
keeping only digits, commas, hyphens and periods on the value side, then
dropping commas, and is converted to a floating-point number whenever the
cleaned string parses as one; the line with label Total Balance and value
5,000.50 yields the pair of that label with the number 5000.50, and a reply
all of whose lines are well formed yields exactly one pair per line. -/
theorem wellFormed_lines_parse (text : String)
    (h : ∀ l ∈ splitLines text.data, ':' ∈ l) :
    (extractParameters text).1 = some (pairsOfLines (splitLines text.data)) ∧
    (pairsOfLines (splitLines text.data)).length = (splitLines text.data).length ∧
    parseLine "Total Balance: 5,000.50".data =
      some ("Total Balance", Value.num (5000.5 : ℚ)) := by
  have hlen := pairsOfLines_length h
  have hne : ¬(pairsOfLines (splitLines text.data)).isEmpty := by
    rw [List.isEmpty_iff_length_eq_zero, hlen]
    intro h0
    exact splitLines_ne_nil text.data (List.length_eq_zero.mp h0)
  refine ⟨?_, hlen, ?_⟩
  · rw [extractParameters, if_neg hne]
  · have h1 : parseLine "Total Balance: 5,000.50".data =
        some ("Total Balance", Value.num (mkRat 10001 2)) := by decide
    have h2 : mkRat 10001 2 = (5000.5 : ℚ) := by
      norm_num [mkRat, Rat.normalize]
    rw [h1, h2]

/-- C2 witness at a two-line reply, both lines well formed. -/
theorem wellFormed_lines_parse_witness :
    (∀ l ∈ splitLines "Total Balance: 5,000.50\nNet Salary: 2".data, ':' ∈ l) ∧
    (extractParameters "Total Balance: 5,000.50\nNet Salary: 2").1 =
      some (pairsOfLines (splitLines "Total Balance: 5,000.50\nNet Salary: 2".data)) ∧
    (pairsOfLines (splitLines "Total Balance: 5,000.50\nNet Salary: 2".data)).length =
      (splitLines "Total Balance: 5,000.50\nNet Salary: 2".data).length ∧
    parseLine "Total Balance: 5,000.50".data =
      some ("Total Balance", Value.num (5000.5 : ℚ)) :=
  ⟨by decide, wellFormed_lines_parse "Total Balance: 5,000.50\nNet Salary: 2" (by decide)⟩

/-- C3: a reply from which no pair is extracted makes extract_parameters
return the none sentinel, distinct from any table, paired with the raw
reply text unchanged. -/
theorem no_pairs_sentinel (text : String)
    (h : pairsOfLines (splitLines text.data) = []) :
    extractParameters text = (none, text) := by
  rw [extractParameters]
  simp [h]

/-- C3 witness at a reply with no parsable line. -/
theorem no_pairs_sentinel_witness :
    pairsOfLines (splitLines "I cannot read this document".data) = [] ∧
    extractParameters "I cannot read this document" =
      (none, "I cannot read this document") :=
  ⟨by decide, no_pairs_sentinel "I cannot read this document" (by decide)⟩

/-- C6: a line without a colon contributes no pair, and its presence
anywhere in the reply leaves the pairs of the other lines exactly as they
would be without it. -/
theorem line_without_colon_skipped (pre post : List (List Char))
    (line : List Char) (h : ':' ∉ line) :
    parseLine line = none ∧
    pairsOfLines (pre ++ line :: post) = pairsOfLines pre ++ pairsOfLines post := by
  have hn := parseLine_eq_none h
  refine ⟨hn, ?_⟩
  rw [pairsOfLines, List.filterMap_append, List.filterMap_cons, hn]
  rfl

/-- C6 witness with a colon-free line between two well-formed ones. -/
theorem line_without_colon_skipped_witness :
    ':' ∉ "junk line".data ∧
    parseLine "junk line".data = none ∧
    pairsOfLines (["A: 1".data] ++ "junk line".data :: ["B: 2".data]) =
      pairsOfLines ["A: 1".data] ++ pairsOfLines ["B: 2".data] :=
  ⟨by decide, line_without_colon_skipped ["A: 1".data] ["B: 2".data] "junk line".data
    (by decide)⟩

/-- C7: a parsed line whose cleaned value does not convert to a number
keeps the cleaned string itself as the Value; a value side of N/A cleans to
the empty string and the pair is kept with that empty string. -/
theorem nonnumeric_value_kept (line l v : List Char)
    (hsplit : splitFirst ':' line = some (l, v))
    (hfail : pyFloat (cleanValue v) = none) :
    parseLine line = some (cleanLabel l, Value.str (String.mk (cleanValue v))) ∧
    parseLine "Amount: N/A".data = some ("Amount", Value.str "") := by
  constructor
  · rw [parseLine, hsplit]
    simp only [convertValue, hfail]
  · decide

/-! Lemmas about the comparator embedding. -/

theorem mem_uniqueFirst {α : Type} [DecidableEq α] {l : List α} {a : α} :
    a ∈ uniqueFirst l ↔ a ∈ l := by
  induction l with
  | nil => simp [uniqueFirst]
  | cons x xs ih =>
    simp only [uniqueFirst, List.mem_cons, List.mem_filter, ih, decide_eq_true_eq]
    by_cases hax : a = x <;> simp [hax]

theorem nodup_uniqueFirst {α : Type} [DecidableEq α] (l : List α) :
    (uniqueFirst l).Nodup := by
  induction l with
  | nil => exact List.nodup_nil
  | cons x xs ih =>
    rw [uniqueFirst, List.nodup_cons]
    refine ⟨fun hx => ?_, ih.filter _⟩
    have := (List.mem_filter.mp hx).2
    simp at this

theorem pairwise_indexOf_uniqueFirst {α : Type} [DecidableEq α] (l : List α) :
    (uniqueFirst l).Pairwise (fun p q => l.indexOf p < l.indexOf q) := by
  induction l with
  | nil => exact List.Pairwise.nil
  | cons x xs ih =>
    rw [uniqueFirst, List.pairwise_cons]
    constructor
    · intro q hq
      have hqx : q ≠ x := by
        have := (List.mem_filter.mp hq).2
        simpa using this
      rw [List.indexOf_cons_self, List.indexOf_cons_ne _ (Ne.symm hqx)]
      exact Nat.succ_pos _
    · have pw := List.Pairwise.sublist
        (@List.filter_sublist α (fun y => decide (y ≠ x)) (uniqueFirst xs)) ih
      refine pw.imp_of_mem ?_
      intro a b ha hb hlt
      have hax : a ≠ x := by
        have := (List.mem_filter.mp ha).2
        simpa using this
      have hbx : b ≠ x := by
        have := (List.mem_filter.mp hb).2
        simpa using this
      rw [List.indexOf_cons_ne _ (Ne.symm hax), List.indexOf_cons_ne _ (Ne.symm hbx)]
      omega

theorem lexLe_total : ∀ a b : List Char, lexLe a b = true ∨ lexLe b a = true
  | [], _ => Or.inl rfl
  | _ :: _, [] => Or.inr rfl
  | a :: as, b :: bs => by
    rcases Nat.lt_trichotomy a.toNat b.toNat with h | h | h
    · left
      simp [lexLe, h]
    · rcases lexLe_total as bs with hr | hr
      · left
        simp [lexLe, h, Nat.lt_irrefl, hr]
      · right
        simp [lexLe, h, Nat.lt_irrefl, hr]
    · right
      simp [lexLe, h]

theorem lexLe_trans : ∀ a b c : List Char,
    lexLe a b = true → lexLe b c = true → lexLe a c = true
  | [], _, _ => fun _ _ => rfl
  | _ :: _, [], _ => fun h _ => by simp [lexLe] at h
  | _ :: _, _ :: _, [] => fun _ h => by simp [lexLe] at h
  | a :: as, b :: bs, c :: cs => fun h1 h2 => by
    by_cases hab : a.toNat < b.toNat <;> by_cases hbc : b.toNat < c.toNat
    · simp [lexLe, show a.toNat < c.toNat by omega]
    · simp only [lexLe, if_neg hbc] at h2
      by_cases hcb : c.toNat < b.toNat
      · simp [hcb] at h2
      · have hbcEq : b.toNat = c.toNat := by omega
        simp [lexLe, show a.toNat < c.toNat by omega]
    · simp only [lexLe, if_neg hab] at h1
      by_cases hba : b.toNat < a.toNat
      · simp [hba] at h1
      · have habEq : a.toNat = b.toNat := by omega
        simp [lexLe, show a.toNat < c.toNat by omega]
    · simp only [lexLe, if_neg hab] at h1
      by_cases hba : b.toNat < a.toNat
      · simp [hba] at h1
      · simp only [lexLe, if_neg hbc] at h2
        by_cases hcb : c.toNat < b.toNat
        · simp [hcb] at h2
        · simp only [if_neg hba] at h1
          simp only [if_neg hcb] at h2
          have hac : ¬a.toNat < c.toNat → ¬c.toNat < a.toNat := by omega
          simp only [lexLe]
          by_cases h : a.toNat < c.toNat
          · simp [h]
          · simp [h, hac h]
            exact lexLe_trans as bs cs h1 h2

instance : IsTotal String strLeR :=
  ⟨fun a b => lexLe_total a.data b.data⟩

instance : IsTrans String strLeR :=
  ⟨fun a b c => lexLe_trans a.data b.data c.data⟩

theorem groupFirst_isSome_iff {rows : List Row} {p d : String} :
    (groupFirst rows p d).isSome ↔ ∃ r ∈ rows, r.param = p ∧ r.doc = d := by
  have hsome : (groupFirst rows p d).isSome =
      (List.find? (fun r => r.param = p && r.doc = d) rows).isSome := by
    rw [groupFirst]
    cases List.find? (fun r => r.param = p && r.doc = d) rows <;> rfl
  rw [hsome, List.find?_isSome]
  simp

theorem mem_commonParameters {rows : List Row} {p : String} :
    p ∈ commonParameters rows ↔
      p ∈ rows.map Row.param ∧
        ∀ d ∈ docsOf rows, ∃ r ∈ rows, r.param = p ∧ r.doc = d := by
  rw [commonParameters, List.mem_filter, List.mem_insertionSort, paramsOf,
    mem_uniqueFirst]
  constructor
  · rintro ⟨hmem, hall⟩
    refine ⟨hmem, fun d hd => ?_⟩
    rw [List.all_eq_true] at hall
    exact groupFirst_isSome_iff.mp (by simpa using hall d hd)
  · rintro ⟨hmem, hall⟩
    refine ⟨hmem, ?_⟩
    rw [List.all_eq_true]
    intro d hd
    simpa using groupFirst_isSome_iff.mpr (hall d hd)

theorem groupFirst_first {rows pre post : List Row} {r : Row}
    (hsplit : rows = pre ++ r :: post)
    (hfirst : ∀ r' ∈ pre, ¬(r'.param = r.param ∧ r'.doc = r.doc)) :
    groupFirst rows r.param r.doc = some r.value := by
  subst hsplit
  rw [groupFirst]
  have hfind : List.find? (fun x => x.param = r.param && x.doc = r.doc)
      (pre ++ r :: post) = some r := by
    induction pre with
    | nil =>
      rw [List.nil_append]
      exact List.find?_cons_of_pos _ (by simp)
    | cons q qs ih =>
      rw [List.cons_append]
      rw [List.find?_cons_of_neg]
      · exact ih (fun r' hr' => hfirst r' (by simp [hr']))
      · have := hfirst q (by simp)
        simpa using this
  rw [hfind]
  rfl

theorem process_multi (rows : List Row) (h : (docsOf rows).length ≠ 1) :
    process_comparative_data rows =
      (rows.filter (fun r => (commonParameters rows).contains r.param),
        commonParameters rows) := by
  rw [process_comparative_data, if_neg h]

/-- C7 witness at the N/A line of the claim. -/
theorem nonnumeric_value_kept_witness :
    splitFirst ':' "Amount: N/A".data = some ("Amount".data, " N/A".data) ∧
    pyFloat (cleanValue " N/A".data) = none ∧
    parseLine "Amount: N/A".data =
      some (cleanLabel "Amount".data, Value.str (String.mk (cleanValue " N/A".data))) ∧
    parseLine "Amount: N/A".data = some ("Amount", Value.str "") :=
  ⟨by decide, by decide,
    nonnumeric_value_kept "Amount: N/A".data "Amount".data " N/A".data
      (by decide) (by decide)⟩

/-- C4: with exactly one distinct Document value the comparator returns the
input table unchanged, and the common-parameter list is the distinct
Parameters of the table, without duplicates and ordered by first
appearance. -/
theorem singleDocument_unchanged (rows : List Row)
    (h : (docsOf rows).length = 1) :
    process_comparative_data rows = (rows, paramsOf rows) ∧
    (paramsOf rows).Nodup ∧
    (∀ p, p ∈ paramsOf rows ↔ p ∈ rows.map Row.param) ∧
    (paramsOf rows).Pairwise
      (fun p q => (rows.map Row.param).indexOf p < (rows.map Row.param).indexOf q) := by
  refine ⟨?_, nodup_uniqueFirst _, fun p => mem_uniqueFirst,
    pairwise_indexOf_uniqueFirst _⟩
  rw [process_comparative_data, if_pos h]

/-- C4 witness at a single-document table with parameters B, A, B. -/
theorem singleDocument_unchanged_witness :
    (docsOf exampleSingleDoc).length = 1 ∧
    (process_comparative_data exampleSingleDoc = (exampleSingleDoc, paramsOf exampleSingleDoc) ∧
     (paramsOf exampleSingleDoc).Nodup ∧
     (∀ p, p ∈ paramsOf exampleSingleDoc ↔ p ∈ exampleSingleDoc.map Row.param) ∧
     (paramsOf exampleSingleDoc).Pairwise
       (fun p q => (exampleSingleDoc.map Row.param).indexOf p <
         (exampleSingleDoc.map Row.param).indexOf q)) :=
  ⟨by decide, singleDocument_unchanged exampleSingleDoc (by decide)⟩

/-- C1: with more than one distinct Document, the per-group value is the
Value of the first row of its (Parameter, Document) group, the
common-parameter list holds exactly the Parameters having a row for every
distinct Document, the returned table has no row outside that list, and
on the example of two documents with Total Balance and Net Salary plus one
with only Total Balance the common set is exactly Total Balance. -/
theorem multiDocument_common_and_filter (rows pre post : List Row) (r : Row)
    (hdocs : 2 ≤ (docsOf rows).length)
    (hsplit : rows = pre ++ r :: post)
    (hfirst : ∀ r' ∈ pre, ¬(r'.param = r.param ∧ r'.doc = r.doc)) :
    groupFirst rows r.param r.doc = some r.value ∧
    (∀ p, p ∈ (process_comparative_data rows).2 ↔
      p ∈ rows.map Row.param ∧
        ∀ d ∈ docsOf rows, ∃ r' ∈ rows, r'.param = p ∧ r'.doc = d) ∧
    (∀ r' ∈ (process_comparative_data rows).1,
      r'.param ∈ (process_comparative_data rows).2) ∧
    commonParameters exampleThreeDocs = ["Total Balance"] := by
  have hne : (docsOf rows).length ≠ 1 := by omega
  have hpm := process_multi rows hne
  refine ⟨groupFirst_first hsplit hfirst, ?_, ?_, by decide⟩
  · intro p
    rw [hpm]
    exact mem_commonParameters
  · intro r' hr'
    rw [hpm] at hr' ⊢
    simp only [List.mem_filter] at hr'
    simpa [List.contains, List.elem_iff] using hr'.2

/-- C1 witness at the three-document example, with the first Total Balance
row as the head of its group. -/
theorem multiDocument_common_and_filter_witness :
    (2 ≤ (docsOf exampleThreeDocs).length ∧
     exampleThreeDocs = [] ++
       (⟨"Total Balance", Value.num (mkRat 1 1), "statement1.png"⟩ : Row) ::
         exampleThreeDocs.tail ∧
     (∀ r' ∈ ([] : List Row),
       ¬(r'.param = "Total Balance" ∧ r'.doc = "statement1.png"))) ∧
    (groupFirst exampleThreeDocs "Total Balance" "statement1.png" =
       some (Value.num (mkRat 1 1)) ∧
     (∀ p, p ∈ (process_comparative_data exampleThreeDocs).2 ↔
       p ∈ exampleThreeDocs.map Row.param ∧
         ∀ d ∈ docsOf exampleThreeDocs,
           ∃ r' ∈ exampleThreeDocs, r'.param = p ∧ r'.doc = d) ∧
     (∀ r' ∈ (process_comparative_data exampleThreeDocs).1,
       r'.param ∈ (process_comparative_data exampleThreeDocs).2) ∧
     commonParameters exampleThreeDocs = ["Total Balance"]) :=
  ⟨⟨by decide, by decide, by decide⟩,
    multiDocument_common_and_filter exampleThreeDocs [] exampleThreeDocs.tail
      ⟨"Total Balance", Value.num (mkRat 1 1), "statement1.png"⟩
      (by decide) (by decide) (by decide)⟩

/-- C9: with more than one distinct Document, the returned table is the
input table filtered to rows whose Parameter has a row for every distinct
Document, in input order, and every row whose Parameter is common keeps
its full multiplicity, so duplicate rows of a group are not collapsed. -/
theorem multiDocument_rows_filtered (rows : List Row)
    (h : 2 ≤ (docsOf rows).length) :
    (process_comparative_data rows).1 =
      rows.filter (fun r => (docsOf rows).all
        (fun d => rows.any (fun r' => r'.param = r.param && r'.doc = d))) ∧
    (∀ r : Row, r.param ∈ commonParameters rows →
      List.count r (process_comparative_data rows).1 = List.count r rows) := by
  have hne : (docsOf rows).length ≠ 1 := by omega
  rw [process_multi rows hne]
  simp only
  constructor
  · apply List.filter_congr
    intro r hr
    rw [Bool.eq_iff_iff]
    have hparam : r.param ∈ rows.map Row.param := List.mem_map_of_mem Row.param hr
    constructor
    · intro hc
      have hmem : r.param ∈ commonParameters rows := by
        simpa [List.contains, List.elem_iff] using hc
      obtain ⟨-, hall⟩ := mem_commonParameters.mp hmem
      rw [List.all_eq_true]
      intro d hd
      obtain ⟨r', hr', hp', hd'⟩ := hall d hd
      rw [List.any_eq_true]
      exact ⟨r', hr', by simp [hp', hd']⟩
    · intro hall
      have hmem : r.param ∈ commonParameters rows := by
        refine mem_commonParameters.mpr ⟨hparam, fun d hd => ?_⟩
        rw [List.all_eq_true] at hall
        obtain ⟨r', hr', hcond⟩ := List.any_eq_true.mp (hall d hd)
        simp only [Bool.and_eq_true, decide_eq_true_eq] at hcond
        exact ⟨r', hr', hcond.1, hcond.2⟩
      simpa [List.contains, List.elem_iff] using hmem
  · intro r hrc
    exact List.count_filter (by simpa [List.contains, List.elem_iff] using hrc)

/-- C9 witness at the two-document example with duplicate group rows. -/
theorem multiDocument_rows_filtered_witness :
    2 ≤ (docsOf exampleTwoDocs).length ∧
    ((process_comparative_data exampleTwoDocs).1 =
      exampleTwoDocs.filter (fun r => (docsOf exampleTwoDocs).all
        (fun d => exampleTwoDocs.any (fun r' => r'.param = r.param && r'.doc = d))) ∧
     (∀ r : Row, r.param ∈ commonParameters exampleTwoDocs →
       List.count r (process_comparative_data exampleTwoDocs).1 =
         List.count r exampleTwoDocs)) :=
  ⟨by decide, multiDocument_rows_filtered exampleTwoDocs (by decide)⟩

/-- C10: with more than one distinct Document the common-parameter list is
the sorted order of the grouped Parameter labels, lexicographically and
strictly increasing, unlike the single-document case: on the two-document
example whose parameters first appear as B then A, the returned list is A
then B while first-appearance order is B then A. -/
theorem multiDocument_params_sorted (rows : List Row)
    (h : 2 ≤ (docsOf rows).length) :
    (process_comparative_data rows).2 = commonParameters rows ∧
    (process_comparative_data rows).2.Pairwise (fun p q => strLeR p q ∧ p ≠ q) ∧
    (process_comparative_data exampleTwoDocs).2 = ["A", "B"] ∧
    paramsOf exampleTwoDocs = ["B", "A"] := by
  have hne : (docsOf rows).length ≠ 1 := by omega
  have hsnd : (process_comparative_data rows).2 = commonParameters rows := by
    rw [process_multi rows hne]
  refine ⟨hsnd, ?_, by decide, by decide⟩
  rw [hsnd, commonParameters]
  have hsorted : List.Sorted strLeR (List.insertionSort strLeR (paramsOf rows)) :=
    List.sorted_insertionSort strLeR (paramsOf rows)
  have hnd : (List.insertionSort strLeR (paramsOf rows)).Nodup :=
    (List.perm_insertionSort strLeR (paramsOf rows)).symm.nodup (nodup_uniqueFirst _)
  exact List.Pairwise.sublist (List.filter_sublist _) (List.Pairwise.and hsorted hnd)

/-! Lemmas for the chart builders: with a nonempty common-parameter list,
every distinct Document of the input keeps at least one row in the
processed table, so the multi-document branch is taken there too. -/

theorem two_le_length_of_two_mem {α : Type} {l : List α} {a b : α}
    (ha : a ∈ l) (hb : b ∈ l) (hab : a ≠ b) : 2 ≤ l.length := by
  match l with
  | [] => simp at ha
  | [x] =>
    rw [List.mem_singleton] at ha hb
    exact absurd (ha.trans hb.symm) hab
  | x :: y :: t =>
    simp only [List.length_cons]
    omega

theorem two_distinct_of_nodup {α : Type} {l : List α}
    (hnd : l.Nodup) (hl : 2 ≤ l.length) : ∃ a ∈ l, ∃ b ∈ l, a ≠ b := by
  match l, hl with
  | a :: b :: t, _ =>
    refine ⟨a, by simp, b, by simp, fun hab => ?_⟩
    exact (List.nodup_cons.mp hnd).1 (hab ▸ List.mem_cons_self b t)

theorem docs_survive {rows : List Row} (hc : commonParameters rows ≠ []) :
    ∀ d ∈ docsOf rows,
      d ∈ (rows.filter
        (fun r => (commonParameters rows).contains r.param)).map Row.doc := by
  intro d hd
  obtain ⟨p0, hp0⟩ := List.exists_mem_of_ne_nil _ hc
  obtain ⟨-, hall⟩ := mem_commonParameters.mp hp0
  obtain ⟨r, hr, hrp, hrd⟩ := hall d hd
  refine List.mem_map.mpr ⟨r, List.mem_filter.mpr ⟨hr, ?_⟩, hrd⟩
  simpa [List.contains, List.elem_iff, hrp] using hp0

/-- C5: the bar and pie builders return the none signal, distinct from any
chart object, for an absent or empty input table, and the multi-document
pie builder returns that signal when the selected Parameter is outside the
common set, never a chart with empty slices. -/
theorem charts_no_data_signal (sel : Option String) (rows : List Row) (p : String)
    (hdocs : 2 ≤ (docsOf rows).length)
    (hp : p ∉ commonParameters rows) :
    visualize_comparative_data none = none ∧
    visualize_comparative_data (some []) = none ∧
    create_interactive_pie_chart none sel = none ∧
    create_interactive_pie_chart (some []) sel = none ∧
    create_interactive_pie_chart (some rows) (some p) = none := by
  refine ⟨rfl, rfl, rfl, rfl, ?_⟩
  have hrowsne : rows ≠ [] := by
    intro h0
    rw [h0] at hdocs
    simp [docsOf, uniqueFirst] at hdocs
  have hne : (docsOf rows).length ≠ 1 := by omega
  have hpm := process_multi rows hne
  simp only [create_interactive_pie_chart, hpm, List.isEmpty_eq_true, hrowsne,
    if_false]
  by_cases hcommon : commonParameters rows = []
  · simp [hcommon]
  · rw [if_neg (by simpa [List.isEmpty_eq_true] using hcommon)]
    obtain ⟨a, hamem, b, hbmem, hab⟩ :=
      two_distinct_of_nodup (nodup_uniqueFirst (rows.map Row.doc)) hdocs
    have hlen2 : 2 ≤ (uniqueFirst ((rows.filter
        (fun r => (commonParameters rows).contains r.param)).map Row.doc)).length :=
      two_le_length_of_two_mem
        (mem_uniqueFirst.mpr (docs_survive hcommon a hamem))
        (mem_uniqueFirst.mpr (docs_survive hcommon b hbmem)) hab
    rw [if_neg (by omega)]
    by_cases hpe : p = ""
    · rw [if_pos hpe]
    · rw [if_neg hpe]
      have hnil : (rows.filter
          (fun r => (commonParameters rows).contains r.param)).filter
            (fun r => r.param = p) = [] := by
        rw [List.filter_eq_nil_iff]
        intro r hr
        simp only [decide_eq_true_eq]
        intro hrp
        apply hp
        have := (List.mem_filter.mp hr).2
        rw [← hrp]
        simpa [List.contains, List.elem_iff] using this
      rw [if_pos hnil]

/-- C5 witness at the two-document example and a parameter outside its
common set. -/
theorem charts_no_data_signal_witness :
    (2 ≤ (docsOf exampleTwoDocs).length ∧ "X" ∉ commonParameters exampleTwoDocs) ∧
    (visualize_comparative_data none = none ∧
     visualize_comparative_data (some []) = none ∧
     create_interactive_pie_chart none none = none ∧
     create_interactive_pie_chart (some []) none = none ∧
     create_interactive_pie_chart (some exampleTwoDocs) (some "X") = none) :=
  ⟨⟨by decide, by decide⟩,
    charts_no_data_signal none exampleTwoDocs "X" (by decide) (by decide)⟩

/-! Lemmas for the CSV round trip: scanning an unquoted field, scanning a
quoted field, one field, one record, and the whole table. -/

theorem string_data_mk (s : String) : String.mk s.data = s := rfl

theorem parseCsvAux_unquoted_cons (c : Char) (cs field : List Char)
    (record : List String) :
    parseCsvAux .unquoted (c :: cs) field record =
      (if c = ',' then
        parseCsvAux .unquoted cs [] (String.mk field.reverse :: record)
      else if c = '\n' then
        (String.mk field.reverse :: record).reverse :: parseCsvAux .unquoted cs [] []
      else if c = '"' && field.isEmpty then parseCsvAux .quoted cs [] record
      else parseCsvAux .unquoted cs (c :: field) record) := by
  rw [parseCsvAux.eq_def]

theorem parseCsvAux_quoted_cons (c : Char) (cs field : List Char)
    (record : List String) :
    parseCsvAux .quoted (c :: cs) field record =
      (if c = '"' then parseCsvAux .afterQuote cs field record
      else parseCsvAux .quoted cs (c :: field) record) := by
  rw [parseCsvAux.eq_def]

theorem parseCsvAux_afterQuote_cons (c : Char) (cs field : List Char)
    (record : List String) :
    parseCsvAux .afterQuote (c :: cs) field record =
      (if c = '"' then parseCsvAux .quoted cs ('"' :: field) record
      else if c = ',' then
        parseCsvAux .unquoted cs [] (String.mk field.reverse :: record)
      else if c = '\n' then
        (String.mk field.reverse :: record).reverse :: parseCsvAux .unquoted cs [] []
      else parseCsvAux .unquoted cs (c :: field) record) := by
  rw [parseCsvAux.eq_def]

theorem parseCsvAux_scan (cs : List Char) (h : ∀ c ∈ cs, csvSpecial c = false) :
    ∀ (rest field : List Char) (record : List String),
      parseCsvAux .unquoted (cs ++ rest) field record =
        parseCsvAux .unquoted rest (cs.reverse ++ field) record := by
  induction cs with
  | nil =>
    intro rest field record
    simp
  | cons c cs ih =>
    intro rest field record
    have hc := h c (by simp)
    simp only [csvSpecial, Bool.or_eq_false_iff, decide_eq_false_iff_not] at hc
    obtain ⟨⟨⟨hc1, hc2⟩, hc3⟩, hc4⟩ := hc
    rw [List.cons_append, parseCsvAux_unquoted_cons]
    rw [if_neg hc1, if_neg hc3, if_neg (by simp [hc2])]
    rw [ih (fun x hx => h x (by simp [hx])) rest (c :: field) record]
    simp

theorem parseCsvAux_quoted_scan (s : List Char) :
    ∀ (rest field : List Char) (record : List String),
      parseCsvAux .quoted (escQuotes s ++ '"' :: rest) field record =
        parseCsvAux .afterQuote rest (s.reverse ++ field) record := by
  induction s with
  | nil =>
    intro rest field record
    rw [escQuotes, List.nil_append, parseCsvAux_quoted_cons, if_pos rfl]
    simp
  | cons c s ih =>
    intro rest field record
    by_cases hc : c = '"'
    · subst hc
      rw [escQuotes, if_pos rfl, List.cons_append, List.cons_append,
        parseCsvAux_quoted_cons, if_pos rfl, parseCsvAux_afterQuote_cons,
        if_pos rfl]
      rw [ih rest ('"' :: field) record]
      simp
    · rw [escQuotes, if_neg hc, List.cons_append, parseCsvAux_quoted_cons,
        if_neg hc]
      rw [ih rest (c :: field) record]
      simp

theorem parseCsvAux_field_comma (f : String) (cs : List Char)
    (record : List String) :
    parseCsvAux .unquoted (csvField f ++ ',' :: cs) [] record =
      parseCsvAux .unquoted cs [] (f :: record) := by
  rw [csvField]
  by_cases hq : f.data.any csvSpecial
  · rw [if_pos hq]
    have hassoc : ('"' :: (escQuotes f.data ++ ['"'])) ++ ',' :: cs =
        '"' :: (escQuotes f.data ++ '"' :: (',' :: cs)) := by simp
    rw [hassoc, parseCsvAux_unquoted_cons, if_neg (by decide),
      if_neg (by decide), if_pos (by decide)]
    rw [parseCsvAux_quoted_scan f.data (',' :: cs) [] record]
    rw [parseCsvAux_afterQuote_cons, if_neg (by decide), if_pos rfl]
    simp [string_data_mk]
  · rw [if_neg hq]
    have hall : ∀ c ∈ f.data, csvSpecial c = false := by
      intro c hcm
      rcases Bool.eq_false_or_eq_true (csvSpecial c) with ht | hf
      · exact absurd (List.any_eq_true.mpr ⟨c, hcm, ht⟩) (by simpa using hq)
      · exact hf
    rw [parseCsvAux_scan f.data hall (',' :: cs) [] record]
    rw [parseCsvAux_unquoted_cons, if_pos rfl]
    simp [string_data_mk]

theorem parseCsvAux_field_newline (f : String) (cs : List Char)
    (record : List String) :
    parseCsvAux .unquoted (csvField f ++ '\n' :: cs) [] record =
      (record.reverse ++ [f]) :: parseCsvAux .unquoted cs [] [] := by
  rw [csvField]
  by_cases hq : f.data.any csvSpecial
  · rw [if_pos hq]
    have hassoc : ('"' :: (escQuotes f.data ++ ['"'])) ++ '\n' :: cs =
        '"' :: (escQuotes f.data ++ '"' :: ('\n' :: cs)) := by simp
    rw [hassoc, parseCsvAux_unquoted_cons, if_neg (by decide),
      if_neg (by decide), if_pos (by decide)]
    rw [parseCsvAux_quoted_scan f.data ('\n' :: cs) [] record]
    rw [parseCsvAux_afterQuote_cons, if_neg (by decide), if_neg (by decide),
      if_pos rfl]
    simp [string_data_mk]
  · rw [if_neg hq]
    have hall : ∀ c ∈ f.data, csvSpecial c = false := by
      intro c hcm
      rcases Bool.eq_false_or_eq_true (csvSpecial c) with ht | hf
      · exact absurd (List.any_eq_true.mpr ⟨c, hcm, ht⟩) (by simpa using hq)
      · exact hf
    rw [parseCsvAux_scan f.data hall ('\n' :: cs) [] record]
    rw [parseCsvAux_unquoted_cons, if_neg (by decide), if_pos rfl]
    simp [string_data_mk]

theorem csvRecord_cons_cons (f g : String) (fs : List String) :
    csvRecord (f :: g :: fs) = csvField f ++ ',' :: csvRecord (g :: fs) := by
  rw [csvRecord.eq_def]

theorem parseCsvAux_record : ∀ (f : String) (fs : List String)
    (rest : List Char) (record : List String),
    parseCsvAux .unquoted (csvRecord (f :: fs) ++ rest) [] record =
      (record.reverse ++ f :: fs) :: parseCsvAux .unquoted rest [] []
  | f, [], rest, record => by
    rw [csvRecord]
    have hassoc : (csvField f ++ ['\n']) ++ rest = csvField f ++ ('\n' :: rest) := by
      simp
    rw [hassoc, parseCsvAux_field_newline f rest record]
  | f, g :: fs, rest, record => by
    rw [csvRecord_cons_cons]
    have hassoc : (csvField f ++ ',' :: csvRecord (g :: fs)) ++ rest =
        csvField f ++ (',' :: (csvRecord (g :: fs) ++ rest)) := by simp
    rw [hassoc, parseCsvAux_field_comma f (csvRecord (g :: fs) ++ rest) record]
    rw [parseCsvAux_record g fs rest (f :: record)]
    simp

theorem parseCsvAux_table : ∀ (rss : List (List String)),
    (∀ rs ∈ rss, rs ≠ []) →
    parseCsvAux .unquoted (rss.map csvRecord).flatten [] [] = rss
  | [], _ => rfl
  | [] :: _, h => absurd rfl (h [] (by simp))
  | (f :: fs) :: rss, h => by
    rw [List.map_cons, List.flatten_cons, parseCsvAux_record f fs _ []]
    rw [parseCsvAux_table rss (fun x hx => h x (by simp [hx]))]
    simp

/-- C8: re-parsing the exported CSV text of any accumulated combined table
recovers the header record followed by exactly one record per row holding
the Parameter, Value and Document fields of that row as exported, so the
export round-trips with the same number of rows and identical fields. -/
theorem csv_round_trip (rows : List Row) :
    parseCsv (toCsv rows) = csvHeader :: rows.map rowFields ∧
    (parseCsv (toCsv rows)).length = rows.length + 1 := by
  have hne : ∀ rs ∈ csvHeader :: rows.map rowFields, rs ≠ [] := by
    intro rs hrs
    rcases List.mem_cons.mp hrs with h | h
    · subst h
      simp [csvHeader]
    · obtain ⟨r, -, hr⟩ := List.mem_map.mp h
      rw [← hr]
      simp [rowFields]
  have htab := parseCsvAux_table (csvHeader :: rows.map rowFields) hne
  rw [List.map_cons, List.flatten_cons, List.map_map] at htab
  have hmain : parseCsv (toCsv rows) = csvHeader :: rows.map rowFields := by
    rw [parseCsv, toCsv]
    exact htab
  exact ⟨hmain, by rw [hmain]; simp⟩

/-- C10 witness at the two-document example. -/
theorem multiDocument_params_sorted_witness :
    2 ≤ (docsOf exampleTwoDocs).length ∧
    ((process_comparative_data exampleTwoDocs).2 = commonParameters exampleTwoDocs ∧
     (process_comparative_data exampleTwoDocs).2.Pairwise
       (fun p q => strLeR p q ∧ p ≠ q) ∧
     (process_comparative_data exampleTwoDocs).2 = ["A", "B"] ∧
     paramsOf exampleTwoDocs = ["B", "A"]) :=
  ⟨by decide, multiDocument_params_sorted exampleTwoDocs (by decide)⟩

end OcrBank
